import Mathlib

/-!
Shallow embedding of the AI inference client and tolerant output parser of
`internal/services/ai_service.go` (package `services`), together with proofs
of the specified properties.

Modelling conventions:
- Go strings are modelled as `List Char` (the inputs of interest are ASCII);
  the public entry points take Lean `String`s and convert at the boundary.
- `(value, error)` returns are modelled as `Except GoError α` when the Go
  code returns a zero value exactly on error, and as `α × Option GoError`
  when the value returned alongside an error matters (`parseScore`).
- The network (the `genai` client) is abstracted as a function
  `outcome : Nat → Except GoError String` giving the provider's response for
  each attempt index of one call; the retry loop of `callGenAI` is embedded
  faithfully over it, recording how many attempts are issued and which
  backoff sleeps are performed.
- `json.Unmarshal` is modelled by an executable JSON parser for the grammar
  `encoding/json` accepts (RFC 8259 syntax: objects, arrays, strings with
  escapes, numbers with optional fraction/exponent, booleans, null), with
  Go's decoding behaviour into `[]string` and `map[string]interface{}`.
  JSON numbers are represented exactly as `mantissa * 10 ^ exponent`
  (the float64 rounding of `encoding/json` is not modelled; all numbers in
  the properties below are exact in both representations).
-/

set_option linter.unusedVariables false

namespace AIService

/-- The character `U+007B` (opening curly bracket). -/
def chLBrace : Char := Char.ofNat 123

/-- The character `U+007D` (closing curly bracket). -/
def chRBrace : Char := Char.ofNat 125

/-- The opening square bracket. -/
def chLBrack : Char := '['

/-- The closing square bracket. -/
def chRBrack : Char := ']'

/-- The double-quote character. -/
def chQuote : Char := Char.ofNat 34

/-- The single-quote character. -/
def chSQuote : Char := Char.ofNat 39

/-- The backslash character. -/
def chBackslash : Char := Char.ofNat 92

/-- The distinct error values produced in `ai_service.go` (each constructor
corresponds to one `errors.New` site or error source in the Go file), plus
abstract provider-side errors. -/
inductive GoError where
  /-- Line 47: `errors.New("bio is empty")`. -/
  | bioEmpty
  /-- Line 216: `errors.New("no json found")`. -/
  | noJSONFound
  /-- Line 223: `errors.New("malformed json object")`. -/
  | malformedObject
  /-- Line 230: `errors.New("malformed json array")`. -/
  | malformedArray
  /-- An error returned by `json.Unmarshal`. -/
  | unmarshalError
  /-- Line 239: `errors.New("no integer found")`. -/
  | noIntegerFound
  /-- An error returned by `strconv.Atoi`. -/
  | atoiError
  /-- Line 203: `errors.New("could not parse match score")`. -/
  | scoreNotParsed
  /-- Line 138: `errors.New("genai failed after retries")` (unreachable). -/
  | retriesExhausted
  /-- A transient provider error on one attempt of `client.Models.GenerateContent`,
      tagged by the attempt index it occurred on. -/
  | provider (attempt : Nat)
  /-- The error a cancelled `context.Context` causes `GenerateContent` to return. -/
  | ctxCanceled
deriving DecidableEq, Repr

/-- `unicode.IsSpace` restricted to Latin-1, as used by `strings.TrimSpace`. -/
def goIsSpace (c : Char) : Bool :=
  c == ' ' || c == '\t' || c == '\n' || c == Char.ofNat 11 || c == Char.ofNat 12 ||
  c == '\r' || c == Char.ofNat 0x85 || c == Char.ofNat 0xA0

/-- Model of `strings.TrimSpace`. -/
def trimSpace (s : List Char) : List Char :=
  ((s.dropWhile goIsSpace).reverse.dropWhile goIsSpace).reverse

/-- Index of the first occurrence of a character, or `none`. -/
def strIndexNat (c : Char) : List Char → Option Nat
  | [] => none
  | x :: xs => if x == c then some 0 else (strIndexNat c xs).map (· + 1)

/-- Index of the last occurrence of a character, or `none`. -/
def strLastIndexNat (c : Char) : List Char → Option Nat
  | [] => none
  | x :: xs =>
    match strLastIndexNat c xs with
    | some i => some (i + 1)
    | none => if x == c then some 0 else none

/-- Model of `strings.Index` for a one-character needle: the index of the
first occurrence, or `-1`. -/
def strIndexZ (s : List Char) (c : Char) : Int :=
  match strIndexNat c s with
  | none => -1
  | some i => (i : Int)

/-- Model of `strings.LastIndex` for a one-character needle: the index of the
last occurrence, or `-1`. -/
def strLastIndexZ (s : List Char) (c : Char) : Int :=
  match strLastIndexNat c s with
  | none => -1
  | some i => (i : Int)

/-- Model of the Go slice expression `s[i:j]`. -/
def goSlice (s : List Char) (i j : Int) : List Char :=
  (s.take j.toNat).drop i.toNat

/-- Embedding of `firstJSONFragment` (ai_service.go lines 211-233): choose the
earlier of the first opening curly bracket and the first opening square
bracket, then slice up to the last occurrence of the matching closing
bracket. -/
def firstJSONFragment (s : List Char) : Except GoError (List Char) :=
  if strIndexZ s chLBrace = -1 ∧ strIndexZ s chLBrack = -1 then
    .error .noJSONFound
  else if strIndexZ s chLBrace ≠ -1 ∧
      (strIndexZ s chLBrack = -1 ∨ strIndexZ s chLBrace < strIndexZ s chLBrack) then
    if strLastIndexZ s chRBrace = -1 ∨ strLastIndexZ s chRBrace ≤ strIndexZ s chLBrace then
      .error .malformedObject
    else .ok (goSlice s (strIndexZ s chLBrace) (strLastIndexZ s chRBrace + 1))
  else
    if strLastIndexZ s chRBrack = -1 ∨ strLastIndexZ s chRBrack ≤ strIndexZ s chLBrack then
      .error .malformedArray
    else .ok (goSlice s (strIndexZ s chLBrack) (strLastIndexZ s chRBrack + 1))

/-- Numeric value of a list of decimal digit characters. -/
def digitsToNat (ds : List Char) : Nat :=
  ds.foldl (fun a c => a * 10 + (c.toNat - 48)) 0

/-- The leftmost match of the Go regular expression `\d{1,3}` in a text:
the first run of consecutive decimal digits, truncated to at most three
characters. -/
def firstDigitRun : List Char → Option (List Char)
  | [] => none
  | c :: rest =>
    if c.isDigit then some (((c :: rest).takeWhile Char.isDigit).take 3)
    else firstDigitRun rest

/-- Embedding of `extractFirstInt` (lines 235-242): `regexp \d{1,3}` followed
by `strconv.Atoi` (which cannot fail on one to three digits). -/
def extractFirstInt (s : List Char) : Except GoError Int :=
  match firstDigitRun s with
  | none => .error .noIntegerFound
  | some ds => .ok (digitsToNat ds : Int)

/-- Embedding of `clampScore` (lines 244-252). -/
def clampScore (n : Int) : Int :=
  if n < 0 then 0
  else if n > 100 then 100
  else n

/-- Model of `strconv.Atoi`: optional sign, then one or more decimal digits
and nothing else, rejecting values outside the 64-bit integer range. -/
def goAtoi (t : List Char) : Except GoError Int :=
  let p : Bool × List Char :=
    match t with
    | c :: rest =>
      if c == '-' then (true, rest)
      else if c == '+' then (false, rest)
      else (false, t)
    | [] => (false, t)
  if p.2 = [] ∨ ¬ p.2.all Char.isDigit then .error .atoiError
  else
    let v : Int := if p.1 then -(digitsToNat p.2 : Int) else (digitsToNat p.2 : Int)
    if v < -(2 ^ 63) ∨ 2 ^ 63 - 1 < v then .error .atoiError
    else .ok v

instance {ε α : Type} [DecidableEq ε] [DecidableEq α] : DecidableEq (Except ε α) :=
  fun a b =>
    match a, b with
    | .ok x, .ok y => decidable_of_iff (x = y) (by simp)
    | .error x, .error y => decidable_of_iff (x = y) (by simp)
    | .ok _, .error _ => isFalse (by simp)
    | .error _, .ok _ => isFalse (by simp)

/-- What one invocation of `callGenAI` did: how many provider attempts were
issued, which backoff sleeps were performed (in order, in time-units), and
the final outcome. -/
structure CallTrace where
  calls : Nat
  sleeps : List Nat
  result : Except GoError String
deriving DecidableEq, Repr

/-- Embedding of the retry loop of `callGenAI` (lines 116-138), with the
provider abstracted as `outcome`. The last argument is the number of loop
iterations still permitted, i.e. `maxRetries - attempt + 1`; the Go loop
condition `attempt <= maxRetries` makes its exhaustion (the `0` case,
Go line 138) unreachable. -/
def callGenAILoop (outcome : Nat → Except GoError String) (attempt backoff : Nat) :
    Nat → CallTrace
  | 0 => ⟨0, [], .error .retriesExhausted⟩
  | remaining + 1 =>
    match outcome attempt with
    | .ok s => ⟨1, [], .ok s⟩
    | .error e =>
      if remaining = 0 then ⟨1, [], .error e⟩
      else
        let t := callGenAILoop outcome (attempt + 1) (backoff * 2) remaining
        ⟨t.calls + 1, backoff :: t.sleeps, t.result⟩

/-- The constant `maxRetries := 3` of line 116. -/
def maxRetries : Nat := 3

/-- Embedding of `callGenAI` (lines 110-139): initial attempt plus up to
`maxRetries` retries, starting from a backoff of one time-unit. -/
def callGenAI (outcome : Nat → Except GoError String) : CallTrace :=
  callGenAILoop outcome 0 1 (maxRetries + 1)

/-- Timed model of `callGenAI` for cancellation analysis, with time measured
in half-units so that an instant strictly inside the first backoff sleep is
expressible. `cancelAt` is the instant the caller's context is cancelled.
An attempt issued at or after `cancelAt` fails immediately with the context
error (the `genai` call observes `ctx`); `time.Sleep(backoff)` always
advances the clock by the full `backoff` because `time.Sleep` does not
observe `ctx`. Arguments after `cancelAt`: attempt index, current backoff in
half-units, current clock, remaining iterations. Returns the clock at return
time and the result. -/
def callGenAITimed (outcome : Nat → Except GoError String) (cancelAt : Nat)
    (attempt backoff clock : Nat) : Nat → Nat × Except GoError String
  | 0 => (clock, .error .retriesExhausted)
  | remaining + 1 =>
    let res := if cancelAt ≤ clock then .error .ctxCanceled else outcome attempt
    match res with
    | .ok s => (clock, .ok s)
    | .error e =>
      if remaining = 0 then (clock, .error e)
      else callGenAITimed outcome cancelAt (attempt + 1) (backoff * 2)
            (clock + backoff) remaining

/-- The timed call: backoff starts at one time-unit, i.e. two half-units. -/
def callGenAITimedRun (outcome : Nat → Except GoError String) (cancelAt : Nat) :
    Nat × Except GoError String :=
  callGenAITimed outcome cancelAt 0 2 0 (maxRetries + 1)

/-- A JSON value as decoded by `encoding/json` into `interface{}`. Numbers
are kept exactly as `mantissa * 10 ^ exp10`. -/
inductive JValue where
  | null
  | bool (b : Bool)
  | num (mantissa : Int) (exp10 : Int)
  | str (s : List Char)
  | arr (elems : List JValue)
  | obj (fields : List (List Char × JValue))

/-- JSON insignificant whitespace (RFC 8259: space, tab, newline, carriage
return). -/
def isJSONSpace (c : Char) : Bool :=
  c == ' ' || c == '\t' || c == '\n' || c == '\r'

/-- Drop leading JSON whitespace. -/
def skipWS (s : List Char) : List Char := s.dropWhile isJSONSpace

/-- Value of a hexadecimal digit character. -/
def hexVal (c : Char) : Option Nat :=
  if c.isDigit then some (c.toNat - 48)
  else if 'a' ≤ c ∧ c ≤ 'f' then some (c.toNat - 87)
  else if 'A' ≤ c ∧ c ≤ 'F' then some (c.toNat - 55)
  else none

/-- The character a single-letter JSON escape denotes. -/
def escMap (e : Char) : Option Char :=
  if e == chQuote then some chQuote
  else if e == chBackslash then some chBackslash
  else if e == '/' then some '/'
  else if e == 'b' then some (Char.ofNat 8)
  else if e == 'f' then some (Char.ofNat 12)
  else if e == 'n' then some '\n'
  else if e == 'r' then some '\r'
  else if e == 't' then some '\t'
  else none

/-- Parse the body of a JSON string, the opening quote already consumed:
returns the decoded content and the input after the closing quote. Raw
control characters are rejected, escape sequences are decoded. -/
def parseJStringBody : List Char → Option (List Char × List Char)
  | [] => none
  | c :: rest =>
    if c == chQuote then some ([], rest)
    else if c == chBackslash then
      match rest with
      | [] => none
      | e :: rest2 =>
        if e == 'u' then
          match rest2 with
          | h1 :: h2 :: h3 :: h4 :: rest3 =>
            match hexVal h1, hexVal h2, hexVal h3, hexVal h4 with
            | some a, some b, some c3, some d =>
              match parseJStringBody rest3 with
              | some (content, r) =>
                some (Char.ofNat (((a * 16 + b) * 16 + c3) * 16 + d) :: content, r)
              | none => none
            | _, _, _, _ => none
          | _ => none
        else
          match escMap e with
          | none => none
          | some ch =>
            match parseJStringBody rest2 with
            | some (content, r) => some (ch :: content, r)
            | none => none
    else if c.toNat < 32 then none
    else
      match parseJStringBody rest with
      | some (content, r) => some (c :: content, r)
      | none => none

/-- Build the exact value of a JSON number literal from its parts:
sign, integer digits, fraction digits, exponent value. -/
def mkNum (neg : Bool) (intDs fracDs : List Char) (expv : Int) : Int × Int :=
  let mag : Nat := digitsToNat (intDs ++ fracDs)
  (if neg then -(mag : Int) else (mag : Int), expv - fracDs.length)

/-- Parse the optional exponent part of a JSON number. -/
def parseExpPart (neg : Bool) (intDs fracDs : List Char) (s : List Char) :
    Option ((Int × Int) × List Char) :=
  match s with
  | e :: r =>
    if e == 'e' || e == 'E' then
      let p : Bool × List Char :=
        match r with
        | c :: rr => if c == '+' then (false, rr) else if c == '-' then (true, rr) else (false, r)
        | [] => (false, r)
      let q := p.2.span Char.isDigit
      if q.1.length = 0 then none
      else
        let ev : Int := if p.1 then -(digitsToNat q.1 : Int) else (digitsToNat q.1 : Int)
        some (mkNum neg intDs fracDs ev, q.2)
    else some (mkNum neg intDs fracDs 0, s)
  | [] => some (mkNum neg intDs fracDs 0, [])

/-- Parse the optional fraction part of a JSON number, then its exponent. -/
def parseFracExp (neg : Bool) (intDs : List Char) (s : List Char) :
    Option ((Int × Int) × List Char) :=
  match s with
  | c :: r =>
    if c == '.' then
      let q := r.span Char.isDigit
      if q.1.length = 0 then none else parseExpPart neg intDs q.1 q.2
    else parseExpPart neg intDs [] s
  | [] => parseExpPart neg intDs [] s

/-- Parse a JSON number literal (RFC 8259 grammar, as `encoding/json`
accepts: optional minus, no leading zeros, optional fraction and exponent). -/
def parseNumber (s : List Char) : Option ((Int × Int) × List Char) :=
  let p : Bool × List Char :=
    match s with
    | c :: rest => if c == '-' then (true, rest) else (false, s)
    | [] => (false, s)
  let q := p.2.span Char.isDigit
  if q.1.length = 0 then none
  else if 1 < q.1.length ∧ q.1.headD 'x' == '0' then none
  else parseFracExp p.1 q.1 q.2

mutual

/-- Parse one JSON value, returning it and the remaining input. The first
argument is fuel bounding the recursion depth. -/
def parseVal : Nat → List Char → Option (JValue × List Char)
  | 0, _ => none
  | fuel + 1, s =>
    match skipWS s with
    | [] => none
    | c :: rest =>
      if c == chQuote then
        match parseJStringBody rest with
        | some (content, r) => some (.str content, r)
        | none => none
      else if c == chLBrace then
        match parseObjItems fuel true rest with
        | some (fs, r) => some (.obj fs, r)
        | none => none
      else if c == chLBrack then
        match parseArrItems fuel true rest with
        | some (vs, r) => some (.arr vs, r)
        | none => none
      else if c == 't' then
        match rest with
        | 'r' :: 'u' :: 'e' :: r => some (.bool true, r)
        | _ => none
      else if c == 'f' then
        match rest with
        | 'a' :: 'l' :: 's' :: 'e' :: r => some (.bool false, r)
        | _ => none
      else if c == 'n' then
        match rest with
        | 'u' :: 'l' :: 'l' :: r => some (.null, r)
        | _ => none
      else
        match parseNumber (c :: rest) with
        | some (mn, r) => some (.num mn.1 mn.2, r)
        | none => none

/-- Parse the items of a JSON array, the opening bracket already consumed;
`allowEmpty` is true only directly after the opening bracket. -/
def parseArrItems : Nat → Bool → List Char → Option (List JValue × List Char)
  | 0, _, _ => none
  | fuel + 1, allowEmpty, s =>
    match skipWS s with
    | [] => none
    | c :: rest =>
      if allowEmpty && c == chRBrack then some ([], rest)
      else
        match parseVal fuel (c :: rest) with
        | none => none
        | some (v, r) =>
          match skipWS r with
          | [] => none
          | c2 :: r2 =>
            if c2 == ',' then
              match parseArrItems fuel false r2 with
              | some (vs, r3) => some (v :: vs, r3)
              | none => none
            else if c2 == chRBrack then some ([v], r2)
            else none

/-- Parse the members of a JSON object, the opening curly bracket already
consumed; `allowEmpty` is true only directly after it. -/
def parseObjItems : Nat → Bool → List Char → Option (List (List Char × JValue) × List Char)
  | 0, _, _ => none
  | fuel + 1, allowEmpty, s =>
    match skipWS s with
    | [] => none
    | c :: rest =>
      if allowEmpty && c == chRBrace then some ([], rest)
      else if c == chQuote then
        match parseJStringBody rest with
        | none => none
        | some (key, r) =>
          match skipWS r with
          | ':' :: r2 =>
            match parseVal fuel r2 with
            | none => none
            | some (v, r3) =>
              match skipWS r3 with
              | [] => none
              | c4 :: r4 =>
                if c4 == ',' then
                  match parseObjItems fuel false r4 with
                  | some (fs, r5) => some ((key, v) :: fs, r5)
                  | none => none
                else if c4 == chRBrace then some ([(key, v)], r4)
                else none
          | _ => none
      else none

end

/-- Model of a syntactically successful `json.Unmarshal`: parse one value and
require only whitespace after it. The fuel `2 * length + 2` dominates the
recursion depth, since every two levels of fuel consume at least one input
character. -/
def unmarshalValue (s : List Char) : Option JValue :=
  match parseVal (2 * s.length + 2) s with
  | none => none
  | some (v, rest) => if skipWS rest = [] then some v else none

/-- Go decoding of one array element into a `string`: a JSON string decodes
to its content, JSON `null` leaves the zero value `""`, anything else is a
type error. -/
def jstringElem : JValue → Option String
  | .str content => some content.asString
  | .null => some ""
  | _ => none

/-- Decode every element of an array by `jstringElem`, failing if any element
fails. -/
def mapStringElems : List JValue → Option (List String)
  | [] => some []
  | v :: vs =>
    match jstringElem v with
    | none => none
    | some s =>
      match mapStringElems vs with
      | none => none
      | some rest => some (s :: rest)

/-- Go decoding of a `JValue` into `[]string`: the value must be an array
(or `null`, which decodes to the nil slice); each element is decoded by
`jstringElem`. -/
def jvalueToStringList : JValue → Option (List String)
  | .null => some []
  | .arr vs => mapStringElems vs
  | _ => none

/-- Model of `json.Unmarshal(data, &arr)` for `arr : []string`. -/
def unmarshalStringArray (s : List Char) : Except GoError (List String) :=
  match unmarshalValue s with
  | none => .error .unmarshalError
  | some v =>
    match jvalueToStringList v with
    | some xs => .ok xs
    | none => .error .unmarshalError

/-- Model of `json.Unmarshal(data, &m)` for `m : map[string]interface\x7b\x7d`:
the value must be an object (or `null`). -/
def unmarshalMap (s : List Char) : Except GoError (List (List Char × JValue)) :=
  match unmarshalValue s with
  | none => .error .unmarshalError
  | some v =>
    match v with
    | .obj fs => .ok fs
    | .null => .ok []
    | _ => .error .unmarshalError

/-- Lookup in the decoded Go map: with duplicate keys the later entry wins,
since decoding assigns in order. -/
def lookupField (fs : List (List Char × JValue)) (key : List Char) : Option JValue :=
  (fs.reverse.find? (fun p => p.1 = key)).map (fun p => p.2)

/-- Model of `strings.ReplaceAll(s, old, new)` for one-character needles. -/
def replaceAllChar (s : List Char) (oldC newC : Char) : List Char :=
  s.map (fun c => if c == oldC then newC else c)

/-- Embedding of `parseStringArray` (lines 143-165): trim, isolate a fragment;
if isolation fails, try the whole trimmed output as a JSON string array and
otherwise surface the isolation error; if isolation succeeds, strictly parse
the fragment, and on failure retry once with single quotes replaced by double
quotes, surfacing the strict-parse error if the repair also fails. -/
def parseStringArrayFromFragment (arrText : List Char) : Except GoError (List String) :=
  match unmarshalStringArray arrText with
  | .ok arr => .ok arr
  | .error e =>
    match unmarshalStringArray (replaceAllChar arrText chSQuote chQuote) with
    | .ok arr => .ok arr
    | .error _ => .error e

/-- Embedding of `parseStringArray` (lines 143-165), the fragment branch split
into `parseStringArrayFromFragment` above. -/
def parseStringArray (out : String) : Except GoError (List String) :=
  match firstJSONFragment (trimSpace out.toList) with
  | .error e =>
    match unmarshalStringArray (trimSpace out.toList) with
    | .ok fallback => .ok fallback
    | .error _ => .error e
  | .ok arrText => parseStringArrayFromFragment arrText

/-- Go conversion `int(t)` for a float64 holding the exact value
`mantissa * 10 ^ exp10`: truncation toward zero. -/
def truncToInt (mantissa exp10 : Int) : Int :=
  if 0 ≤ exp10 then mantissa * (10 : Int) ^ exp10.toNat
  else Int.tdiv mantissa ((10 : Int) ^ (-exp10).toNat)

/-- The key looked up in the score object. -/
def msKey : List Char := "match_score".toList

/-- The shared fallback of `parseScore` when no usable `match_score` field
was obtained from the decoded map (lines 199-203): first integer in the
fragment, else the line 203 error. -/
def scoreFinalFallback (jsonText : List Char) : Int × Option GoError :=
  match extractFirstInt jsonText with
  | .ok n => (clampScore n, none)
  | .error _ => (0, some .scoreNotParsed)

/-- The fragment branch of `parseScore` (lines 178-203): decode the fragment
as a map, use a numeric or numeric-string `match_score` field, and otherwise
fall back to the first integer in the fragment. With a decoded `float64`
field the Go code returns `int(t)`, i.e. truncation toward zero; the Go
`case int` branch cannot fire on a value decoded by `encoding/json` and is
subsumed by the number case here. -/
def parseScoreFromFragment (jsonText : List Char) : Int × Option GoError :=
  match unmarshalMap jsonText with
  | .error e =>
    match extractFirstInt jsonText with
    | .ok n => (clampScore n, none)
    | .error _ => (0, some e)
  | .ok m =>
    match lookupField m msKey with
    | some (.num mantissa exp10) => (clampScore (truncToInt mantissa exp10), none)
    | some (.str t) =>
      match goAtoi t with
      | .ok n => (clampScore n, none)
      | .error _ => scoreFinalFallback jsonText
    | _ => scoreFinalFallback jsonText

/-- Embedding of `parseScore` (lines 167-204), returning the Go pair
`(int, error)` with `error` as `Option GoError`. -/
def parseScore (out : String) : Int × Option GoError :=
  match firstJSONFragment (trimSpace out.toList) with
  | .error e =>
    match extractFirstInt (trimSpace out.toList) with
    | .ok n => (clampScore n, none)
    | .error _ => (0, some e)
  | .ok jsonText => parseScoreFromFragment jsonText

/-- Embedding of `ExtractSkillsFromText` (lines 45-61). The provider is
abstracted as `outcome` (the behaviour of `client.Models.GenerateContent`
on this call's prompt, per attempt index); the returned `Bool` records
whether the provider was contacted at all (at least one attempt issued). -/
def ExtractSkillsFromText (outcome : Nat → Except GoError String) (bio : String) :
    Bool × Except GoError (List String) :=
  if trimSpace bio.toList = [] then (false, .error .bioEmpty)
  else
    match (callGenAI outcome).result with
    | .error e => (true, .error e)
    | .ok out => (true, parseStringArray out)

/-- Embedding of `ComputeMatchScore` (lines 79-91): no emptiness check is
performed on any input; the provider is always contacted. The returned
`Bool` records whether the provider was contacted. -/
def ComputeMatchScore (outcome : Nat → Except GoError String)
    (userSkills : List String) (jobDescription : String) :
    Bool × (Int × Option GoError) :=
  match (callGenAI outcome).result with
  | .error e => (true, (0, some e))
  | .ok out => (true, parseScore out)

/-- Whether a text contains any decimal digit. -/
def hasDigit (s : List Char) : Bool := s.any Char.isDigit

/-- The region `parseScore` scans for digits in its fallbacks: the isolated
fragment when isolation succeeds, otherwise the whole trimmed response. -/
def scannedRegion (out : String) : List Char :=
  match firstJSONFragment (trimSpace out.toList) with
  | .ok frag => frag
  | .error _ => trimSpace out.toList

/-- The closing bracket matching an opening bracket. -/
def matchingClose (o : Char) : Char :=
  if o == chLBrace then chRBrace else chRBrack

/-- The fragment-isolation error for a malformed region of the given opening
bracket kind. -/
def malformedFragmentErr (o : Char) : GoError :=
  if o == chLBrace then .malformedObject else .malformedArray

/-- Whether an `Except` value is a success. -/
def exceptIsOk {ε α : Type} : Except ε α → Bool
  | .ok _ => true
  | .error _ => false

/-- Whether a decoded `match_score` field value is usable by `parseScore`
without falling back to the digit scan: a number, or a string `strconv.Atoi`
accepts. -/
def scoreFieldUsable : Option JValue → Bool
  | some (.num _ _) => true
  | some (.str t) => exceptIsOk (goAtoi t)
  | _ => false

/-- A character that needs no escaping inside a JSON string literal and is
not a quote: rendering such characters is the identity. -/
def PlainChar (c : Char) : Prop :=
  c ≠ chQuote ∧ c ≠ chBackslash ∧ 32 ≤ c.toNat

instance (c : Char) : Decidable (PlainChar c) := by
  unfold PlainChar; infer_instance

/-- The JSON rendering of a string needing no escapes. -/
def renderString (s : String) : List Char :=
  chQuote :: (s.toList ++ [chQuote])

/-- Comma-join a list of rendered items. -/
def joinComma : List (List Char) → List Char
  | [] => []
  | [x] => x
  | x :: y :: rest => x ++ ',' :: joinComma (y :: rest)

/-- The text following the opening bracket of a rendered string array:
the comma-joined items and the closing bracket. -/
def itemsText (xs : List String) : List Char :=
  joinComma (xs.map renderString) ++ [chRBrack]

/-- The canonical JSON rendering of a string array, `["a","b","c"]`-shaped:
no whitespace, each element double-quoted. -/
def renderStringArray (xs : List String) : String :=
  (chLBrack :: itemsText xs).asString

end AIService

namespace AIService

/-- C1: for every prompt (abstracted as the per-attempt provider behaviour
`outcome`), `callGenAI` issues at most 4 total attempts; the backoff sleeps
performed are exactly the first `calls - 1` entries of `[1, 2, 4]` time-units
(so no sleep ever follows the final attempt); failures before the final
attempt are swallowed and a non-error response on any attempt terminates the
loop with that response after exactly that many attempts; and when all four
attempts fail, the final attempt's error is returned after sleeping
`1, 2, 4`. -/
theorem callGenAI_retry_policy (outcome : Nat → Except GoError String) :
    (callGenAI outcome).calls ≤ 4 ∧
    (callGenAI outcome).sleeps = [1, 2, 4].take ((callGenAI outcome).calls - 1) ∧
    (∀ k s, k ≤ maxRetries → (∀ i, i < k → ∃ e, outcome i = .error e) →
      outcome k = .ok s →
      (callGenAI outcome).result = .ok s ∧ (callGenAI outcome).calls = k + 1) ∧
    (∀ e3, (∀ i, i < maxRetries → ∃ e, outcome i = .error e) →
      outcome maxRetries = .error e3 →
      (callGenAI outcome).result = .error e3 ∧ (callGenAI outcome).calls = 4 ∧
      (callGenAI outcome).sleeps = [1, 2, 4]) := by
  rcases h0 : outcome 0 with e0 | s0
  · rcases h1 : outcome 1 with e1 | s1
    · rcases h2 : outcome 2 with e2 | s2
      · rcases h3 : outcome 3 with e3 | s3
        · have hc : callGenAI outcome = ⟨4, [1, 2, 4], .error e3⟩ := by
            simp [callGenAI, callGenAILoop, maxRetries, h0, h1, h2, h3]
          refine ⟨by simp [hc], by simp [hc], ?_, ?_⟩
          · intro k s hk hprev hok
            simp only [maxRetries] at hk
            interval_cases k
            · rw [h0] at hok; simp at hok
            · rw [h1] at hok; simp at hok
            · rw [h2] at hok; simp at hok
            · rw [h3] at hok; simp at hok
          · intro e3h hprev h3h
            simp only [maxRetries] at h3h
            rw [h3] at h3h
            simp at h3h
            subst h3h
            exact ⟨by simp [hc], by simp [hc], by simp [hc]⟩
        · have hc : callGenAI outcome = ⟨4, [1, 2, 4], .ok s3⟩ := by
            simp [callGenAI, callGenAILoop, maxRetries, h0, h1, h2, h3]
          refine ⟨by simp [hc], by simp [hc], ?_, ?_⟩
          · intro k s hk hprev hok
            simp only [maxRetries] at hk
            interval_cases k
            · rw [h0] at hok; simp at hok
            · rw [h1] at hok; simp at hok
            · rw [h2] at hok; simp at hok
            · rw [h3] at hok; simp at hok; subst hok
              exact ⟨by simp [hc], by simp [hc]⟩
          · intro e3h hprev h3h
            simp only [maxRetries] at h3h
            rw [h3] at h3h; simp at h3h
      · have hc : callGenAI outcome = ⟨3, [1, 2], .ok s2⟩ := by
          simp [callGenAI, callGenAILoop, maxRetries, h0, h1, h2]
        refine ⟨by simp [hc], by simp [hc], ?_, ?_⟩
        · intro k s hk hprev hok
          simp only [maxRetries] at hk
          interval_cases k
          · rw [h0] at hok; simp at hok
          · rw [h1] at hok; simp at hok
          · rw [h2] at hok; simp at hok; subst hok
            exact ⟨by simp [hc], by simp [hc]⟩
          · obtain ⟨e, he⟩ := hprev 2 (by omega)
            rw [h2] at he; simp at he
        · intro e3h hprev h3h
          obtain ⟨e, he⟩ := hprev 2 (by simp [maxRetries])
          rw [h2] at he; simp at he
    · have hc : callGenAI outcome = ⟨2, [1], .ok s1⟩ := by
        simp [callGenAI, callGenAILoop, maxRetries, h0, h1]
      refine ⟨by simp [hc], by simp [hc], ?_, ?_⟩
      · intro k s hk hprev hok
        simp only [maxRetries] at hk
        interval_cases k
        · rw [h0] at hok; simp at hok
        · rw [h1] at hok; simp at hok; subst hok
          exact ⟨by simp [hc], by simp [hc]⟩
        · obtain ⟨e, he⟩ := hprev 1 (by omega)
          rw [h1] at he; simp at he
        · obtain ⟨e, he⟩ := hprev 1 (by omega)
          rw [h1] at he; simp at he
      · intro e3h hprev h3h
        obtain ⟨e, he⟩ := hprev 1 (by simp [maxRetries])
        rw [h1] at he; simp at he
  · have hc : callGenAI outcome = ⟨1, [], .ok s0⟩ := by
      simp [callGenAI, callGenAILoop, maxRetries, h0]
    refine ⟨by simp [hc], by simp [hc], ?_, ?_⟩
    · intro k s hk hprev hok
      simp only [maxRetries] at hk
      interval_cases k
      · rw [h0] at hok; simp at hok; subst hok
        exact ⟨by simp [hc], by simp [hc]⟩
      · obtain ⟨e, he⟩ := hprev 0 (by omega)
        rw [h0] at he; simp at he
      · obtain ⟨e, he⟩ := hprev 0 (by omega)
        rw [h0] at he; simp at he
      · obtain ⟨e, he⟩ := hprev 0 (by omega)
        rw [h0] at he; simp at he
    · intro e3h hprev h3h
      obtain ⟨e, he⟩ := hprev 0 (by simp [maxRetries])
      rw [h0] at he; simp at he

/-- Witness for C1: with a provider failing on attempts 0 and 1 and
succeeding on attempt 2, the call returns that response after exactly three
attempts. -/
theorem callGenAI_retry_policy_witness :
    (callGenAI fun i => if i < 2 then .error (.provider i) else .ok "done").result =
      .ok "done" ∧
    (callGenAI fun i => if i < 2 then .error (.provider i) else .ok "done").calls = 3 := by
  have h := callGenAI_retry_policy (fun i => if i < 2 then .error (.provider i) else .ok "done")
  exact h.2.2.1 2 "done" (by simp [maxRetries])
    (fun i hi => ⟨.provider i, by simp [hi]⟩) (by simp)

end AIService

namespace AIService

theorem clampScore_mem_range (n : Int) : 0 ≤ clampScore n ∧ clampScore n ≤ 100 := by
  unfold clampScore; split_ifs <;> omega

theorem firstDigitRun_none_iff (s : List Char) :
    firstDigitRun s = none ↔ hasDigit s = false := by
  induction s with
  | nil => simp [firstDigitRun, hasDigit]
  | cons c rest ih =>
    by_cases h : c.isDigit
    · simp [firstDigitRun, hasDigit, h]
    · simp [hasDigit] at ih
      simp [firstDigitRun, hasDigit, h, ih]

theorem extractFirstInt_error_no_digit (s : List Char) (e : GoError)
    (h : extractFirstInt s = .error e) : hasDigit s = false := by
  unfold extractFirstInt at h
  cases hr : firstDigitRun s with
  | none => exact (firstDigitRun_none_iff s).mp hr
  | some ds => rw [hr] at h; cases h

theorem scoreFinalFallback_shape (jsonText : List Char) :
    (∃ n, scoreFinalFallback jsonText = (clampScore n, none)) ∨
    (scoreFinalFallback jsonText = (0, some .scoreNotParsed) ∧ hasDigit jsonText = false) := by
  unfold scoreFinalFallback
  cases hi : extractFirstInt jsonText with
  | error e => right; exact ⟨rfl, extractFirstInt_error_no_digit _ _ hi⟩
  | ok n => left; exact ⟨n, rfl⟩

theorem parseScoreFromFragment_shape (jsonText : List Char) :
    (∃ n, parseScoreFromFragment jsonText = (clampScore n, none)) ∨
    (∃ e, parseScoreFromFragment jsonText = (0, some e) ∧ hasDigit jsonText = false) := by
  unfold parseScoreFromFragment
  cases hm : unmarshalMap jsonText with
  | error e =>
    cases hi : extractFirstInt jsonText with
    | error e2 => right; exact ⟨e, rfl, extractFirstInt_error_no_digit _ _ hi⟩
    | ok n => left; exact ⟨n, rfl⟩
  | ok m =>
    rcases hf : lookupField m msKey with _ | v
    · rcases scoreFinalFallback_shape jsonText with ⟨n, hsf⟩ | ⟨hsf, hd⟩
      · left; exact ⟨n, by simp [hf, hsf]⟩
      · right; exact ⟨.scoreNotParsed, by simp [hf, hsf], hd⟩
    · cases v with
      | num mantissa exp10 => left; exact ⟨truncToInt mantissa exp10, by simp [hf]⟩
      | str t =>
        cases ha : goAtoi t with
        | ok n => left; exact ⟨n, by simp [hf, ha]⟩
        | error e2 =>
          rcases scoreFinalFallback_shape jsonText with ⟨n, hsf⟩ | ⟨hsf, hd⟩
          · left; exact ⟨n, by simp [hf, ha, hsf]⟩
          · right; exact ⟨.scoreNotParsed, by simp [hf, ha, hsf], hd⟩
      | null =>
        rcases scoreFinalFallback_shape jsonText with ⟨n, hsf⟩ | ⟨hsf, hd⟩
        · left; exact ⟨n, by simp [hf, hsf]⟩
        · right; exact ⟨.scoreNotParsed, by simp [hf, hsf], hd⟩
      | bool b =>
        rcases scoreFinalFallback_shape jsonText with ⟨n, hsf⟩ | ⟨hsf, hd⟩
        · left; exact ⟨n, by simp [hf, hsf]⟩
        · right; exact ⟨.scoreNotParsed, by simp [hf, hsf], hd⟩
      | arr elems =>
        rcases scoreFinalFallback_shape jsonText with ⟨n, hsf⟩ | ⟨hsf, hd⟩
        · left; exact ⟨n, by simp [hf, hsf]⟩
        · right; exact ⟨.scoreNotParsed, by simp [hf, hsf], hd⟩
      | obj fields =>
        rcases scoreFinalFallback_shape jsonText with ⟨n, hsf⟩ | ⟨hsf, hd⟩
        · left; exact ⟨n, by simp [hf, hsf]⟩
        · right; exact ⟨.scoreNotParsed, by simp [hf, hsf], hd⟩

theorem parseScore_shape (out : String) :
    (∃ n, parseScore out = (clampScore n, none)) ∨
    (∃ e, parseScore out = (0, some e) ∧ hasDigit (scannedRegion out) = false) := by
  unfold parseScore scannedRegion
  cases hfr : firstJSONFragment (trimSpace out.toList) with
  | error e =>
    cases hi : extractFirstInt (trimSpace out.toList) with
    | error e2 => right; exact ⟨e, by simp, extractFirstInt_error_no_digit _ _ hi⟩
    | ok n => left; exact ⟨n, by simp⟩
  | ok frag =>
    rcases parseScoreFromFragment_shape frag with ⟨n, hs⟩ | ⟨e, hs, hd⟩
    · left; exact ⟨n, by simp [hs]⟩
    · right; exact ⟨e, by simp [hs], by simpa using hd⟩

theorem parseScore_on_fragment (out : String) (frag : List Char)
    (hf : firstJSONFragment (trimSpace out.toList) = .ok frag) :
    parseScore out = parseScoreFromFragment frag := by
  unfold parseScore
  cases hfr : firstJSONFragment (trimSpace out.toList) with
  | error e => rw [hfr] at hf; cases hf
  | ok frag2 => rw [hfr] at hf; injection hf with h; subst h; rfl

theorem parseScore_isolation_failed (out : String) (e : GoError) (n : Int)
    (hf : firstJSONFragment (trimSpace out.toList) = .error e)
    (hi : extractFirstInt (trimSpace out.toList) = .ok n) :
    parseScore out = (clampScore n, none) := by
  unfold parseScore
  cases hfr : firstJSONFragment (trimSpace out.toList) with
  | error e2 =>
    cases hi2 : extractFirstInt (trimSpace out.toList) with
    | error e3 => rw [hi2] at hi; cases hi
    | ok n2 => rw [hi2] at hi; injection hi with h; subst h; rfl
  | ok frag => rw [hfr] at hf; cases hf

theorem parseScoreFromFragment_unmarshal_failed (frag : List Char) (e : GoError) (n : Int)
    (hm : unmarshalMap frag = .error e) (hi : extractFirstInt frag = .ok n) :
    parseScoreFromFragment frag = (clampScore n, none) := by
  unfold parseScoreFromFragment
  simp only [hm, hi]

theorem parseScoreFromFragment_num_field (frag : List Char)
    (m : List (List Char × JValue)) (mantissa exp10 : Int)
    (hm : unmarshalMap frag = .ok m)
    (hl : lookupField m msKey = some (.num mantissa exp10)) :
    parseScoreFromFragment frag = (clampScore (truncToInt mantissa exp10), none) := by
  unfold parseScoreFromFragment
  simp only [hm, hl]

theorem parseScoreFromFragment_str_field (frag : List Char)
    (m : List (List Char × JValue)) (t : List Char) (n : Int)
    (hm : unmarshalMap frag = .ok m)
    (hl : lookupField m msKey = some (.str t)) (ha : goAtoi t = .ok n) :
    parseScoreFromFragment frag = (clampScore n, none) := by
  unfold parseScoreFromFragment
  simp only [hm, hl, ha]

theorem parseScoreFromFragment_unusable_field (frag : List Char)
    (m : List (List Char × JValue)) (n : Int)
    (hm : unmarshalMap frag = .ok m)
    (hu : scoreFieldUsable (lookupField m msKey) = false)
    (hi : extractFirstInt frag = .ok n) :
    parseScoreFromFragment frag = (clampScore n, none) := by
  have hfb : scoreFinalFallback frag = (clampScore n, none) := by
    unfold scoreFinalFallback
    cases hi2 : extractFirstInt frag with
    | error e => rw [hi2] at hi; cases hi
    | ok n2 => rw [hi2] at hi; injection hi with h; subst h; rfl
  unfold parseScoreFromFragment
  simp only [hm]
  cases hl2 : lookupField m msKey with
  | none => simp only [hl2]; exact hfb
  | some v =>
    rw [hl2] at hu
    cases v with
    | num mantissa exp10 => simp [scoreFieldUsable] at hu
    | str t =>
      cases ha2 : goAtoi t with
      | ok k => simp [scoreFieldUsable, ha2, exceptIsOk] at hu
      | error e2 => simp only [hl2, ha2]; exact hfb
    | null => simp only [hl2]; exact hfb
    | bool b => simp only [hl2]; exact hfb
    | arr elems => simp only [hl2]; exact hfb
    | obj fields => simp only [hl2]; exact hfb

end AIService

namespace AIService

/-- C3 (refuted by the code, confirming a code bug): `time.Sleep` does not
observe the caller's context, so with a transiently failing provider the
elapsed sleep time of one call is the full 1 + 2 + 4 time-units (14
half-units) for every cancellation instant whatsoever; in particular,
cancelling at instant 1 — in the middle of the first backoff sleep — still
lets all remaining backoff sleeps complete before the context error is
returned, contradicting the requirement that the call return promptly. -/
theorem callGenAI_sleep_not_cancellable :
    (∀ cancelAt, (callGenAITimedRun (fun _ => .error (.provider 0)) cancelAt).1 = 14) ∧
    callGenAITimedRun (fun _ => .error (.provider 0)) 1 = (14, .error .ctxCanceled) := by
  refine ⟨?_, by rfl⟩
  intro ca
  by_cases h0 : ca ≤ 0 <;> by_cases h2 : ca ≤ 2 <;> by_cases h6 : ca ≤ 6 <;>
    by_cases h14 : ca ≤ 14 <;>
    simp [callGenAITimedRun, callGenAITimed, maxRetries, h0, h2, h6, h14]

/-- C4 counterexample: with an empty job description, `ComputeMatchScore`
still contacts the provider and returns whatever the pipeline produces,
rather than failing with the empty-input error before any network use. -/
theorem computeMatchScore_empty_input_counterexample :
    (ComputeMatchScore (fun _ => .ok "\x7b\"match_score\": 87\x7d") [] "").1 = true ∧
    (ComputeMatchScore (fun _ => .ok "\x7b\"match_score\": 87\x7d") [] "").2 = (87, none) := by
  exact ⟨rfl, rfl⟩

/-- C4 amended: only the extract-skills entry point rejects empty or
whitespace-only caller text (the bio) with the empty-input error before
contacting the provider; `ComputeMatchScore` performs no emptiness check on
the job description and always contacts the provider. -/
theorem emptyInput_checked_only_for_skills :
    (∀ outcome bio, trimSpace bio.toList = [] →
      ExtractSkillsFromText outcome bio = (false, .error .bioEmpty)) ∧
    (∀ outcome userSkills jobDescription,
      (ComputeMatchScore outcome userSkills jobDescription).1 = true) := by
  constructor
  · intro outcome bio h
    have h2 : trimSpace bio.data = [] := h
    simp [ExtractSkillsFromText, h, h2]
  · intro outcome userSkills jobDescription
    cases hr : (callGenAI outcome).result with
    | error e => simp [ComputeMatchScore, hr]
    | ok out => simp [ComputeMatchScore, hr]

/-- Witness for the amended C4: a whitespace-only bio is rejected without
contacting the provider. -/
theorem emptyInput_checked_only_for_skills_witness :
    ExtractSkillsFromText (fun _ => .ok "[]") "  " = (false, .error .bioEmpty) :=
  emptyInput_checked_only_for_skills.1 (fun _ => .ok "[]") "  " (by decide)

/-- C5 counterexample: the response `42 \x7b\x7d` contains a decimal digit, yet
`parseScore` fails hard — the digit lies outside the isolated fragment `\x7b\x7d`
and is never scanned. -/
theorem parseScore_digit_outside_fragment_counterexample :
    hasDigit "42 \x7b\x7d".toList = true ∧
    parseScore "42 \x7b\x7d" = (0, some .scoreNotParsed) := by
  exact ⟨rfl, rfl⟩

/-- C5 amended: a digit in the scanned region — the isolated fragment when
isolation succeeds, otherwise the whole trimmed response — guarantees that
`parseScore` returns a normalized in-range score, and a hard failure occurs
only when the scanned region contains no digit; digits outside the
isolated fragment do not prevent failure. -/
theorem parseScore_digit_in_scanned_region (out : String) :
    (hasDigit (scannedRegion out) = true →
      (parseScore out).2 = none ∧ 0 ≤ (parseScore out).1 ∧ (parseScore out).1 ≤ 100) ∧
    ((parseScore out).2 ≠ none → hasDigit (scannedRegion out) = false) := by
  constructor
  · intro h
    rcases parseScore_shape out with ⟨n, hs⟩ | ⟨e, hs, hd⟩
    · rw [hs]
      exact ⟨rfl, (clampScore_mem_range n).1, (clampScore_mem_range n).2⟩
    · rw [hd] at h; cases h
  · intro h
    rcases parseScore_shape out with ⟨n, hs⟩ | ⟨e, hs, hd⟩
    · rw [hs] at h; simp at h
    · exact hd

/-- Witness for the amended C5 at a digit-bearing response without JSON. -/
theorem parseScore_digit_in_scanned_region_witness :
    (parseScore "score 42").2 = none ∧
    0 ≤ (parseScore "score 42").1 ∧ (parseScore "score 42").1 ≤ 100 :=
  (parseScore_digit_in_scanned_region "score 42").1 (by rfl)

/-- C6: the score normalizer clamps into [0, 100] — negatives to 0, values
above 100 to 100, in-range values unchanged — and every score `parseScore`
(hence `ComputeMatchScore`) returns with a nil error lies in [0, 100]. -/
theorem clampScore_contract :
    (∀ n : Int, (n < 0 → clampScore n = 0) ∧ (100 < n → clampScore n = 100) ∧
      (0 ≤ n → n ≤ 100 → clampScore n = n)) ∧
    (∀ out n, parseScore out = (n, none) → 0 ≤ n ∧ n ≤ 100) ∧
    (∀ outcome userSkills jobDescription n,
      (ComputeMatchScore outcome userSkills jobDescription).2 = (n, none) →
      0 ≤ n ∧ n ≤ 100) := by
  have hclamp : ∀ n : Int, (n < 0 → clampScore n = 0) ∧ (100 < n → clampScore n = 100) ∧
      (0 ≤ n → n ≤ 100 → clampScore n = n) := by
    intro n
    refine ⟨fun h => ?_, fun h => ?_, fun h h2 => ?_⟩ <;>
      unfold clampScore <;> split_ifs <;> omega
  have hps : ∀ out n, parseScore out = (n, none) → 0 ≤ n ∧ n ≤ 100 := by
    intro out n h
    rcases parseScore_shape out with ⟨m, hs⟩ | ⟨e, hs, hd⟩
    · rw [hs] at h
      have hn : clampScore m = n := (Prod.ext_iff.mp h).1
      rw [← hn]
      exact clampScore_mem_range m
    · rw [hs] at h
      have := (Prod.ext_iff.mp h).2
      simp at this
  refine ⟨hclamp, hps, ?_⟩
  intro outcome userSkills jobDescription n h
  cases hr : (callGenAI outcome).result with
  | error e =>
    simp [ComputeMatchScore, hr] at h
  | ok out =>
    simp only [ComputeMatchScore, hr] at h
    exact hps out n h

/-- Witness for C6 at concrete inputs: a negative value, an overflowing
value, an in-range value, and the concrete digit-scan score 42. -/
theorem clampScore_contract_witness :
    clampScore (-7) = 0 ∧ clampScore 250 = 100 ∧ clampScore 87 = 87 ∧
    (0 ≤ (42 : Int) ∧ (42 : Int) ≤ 100) :=
  ⟨(clampScore_contract.1 (-7)).1 (by norm_num),
   (clampScore_contract.1 250).2.1 (by norm_num),
   (clampScore_contract.1 87).2.2 (by norm_num) (by norm_num),
   clampScore_contract.2.1 "The score is about 42 out of 100." 42 (by rfl)⟩

/-- C7: the score path decodes the fragment as a map and accepts a
`match_score` field that is a number (truncated toward zero) or a numeric
string; concretely `\x7b"match_score": 87\x7d` yields 87 and
`\x7b"match_score": "120"\x7d` yields 100 after clamping. -/
theorem parseScore_match_score_field :
    parseScore "\x7b\"match_score\": 87\x7d" = (87, none) ∧
    parseScore "\x7b\"match_score\": \"120\"\x7d" = (100, none) ∧
    (∀ out frag m mantissa exp10,
      firstJSONFragment (trimSpace out.toList) = .ok frag →
      unmarshalMap frag = .ok m →
      lookupField m msKey = some (.num mantissa exp10) →
      parseScore out = (clampScore (truncToInt mantissa exp10), none)) ∧
    (∀ out frag m t n,
      firstJSONFragment (trimSpace out.toList) = .ok frag →
      unmarshalMap frag = .ok m →
      lookupField m msKey = some (.str t) → goAtoi t = .ok n →
      parseScore out = (clampScore n, none)) := by
  refine ⟨by rfl, by rfl, ?_, ?_⟩
  · intro out frag m mantissa exp10 hf hm hl
    rw [parseScore_on_fragment out frag hf]
    exact parseScoreFromFragment_num_field frag m mantissa exp10 hm hl
  · intro out frag m t n hf hm hl ha
    rw [parseScore_on_fragment out frag hf]
    exact parseScoreFromFragment_str_field frag m t n hm hl ha

/-- Witness for C7's general field-acceptance clause at the concrete
response with a numeric field. -/
theorem parseScore_match_score_field_witness :
    parseScore "\x7b\"match_score\": 87\x7d" = (clampScore (truncToInt 87 0), none) :=
  parseScore_match_score_field.2.2.1 "\x7b\"match_score\": 87\x7d"
    "\x7b\"match_score\": 87\x7d".toList [("match_score".toList, .num 87 0)] 87 0
    (by rfl) (by rfl) (by rfl)

/-- C9: when fragment isolation fails, or the map decode fails, or the
`match_score` field is absent or unusable, `parseScore` falls back to the
first run of one to three decimal digits of the scanned region; concretely
a prose-only response containing 42 yields 42. -/
theorem parseScore_digit_scan_fallback :
    parseScore "The score is about 42 out of 100." = (42, none) ∧
    (∀ out e n, firstJSONFragment (trimSpace out.toList) = .error e →
      extractFirstInt (trimSpace out.toList) = .ok n →
      parseScore out = (clampScore n, none)) ∧
    (∀ out frag e n, firstJSONFragment (trimSpace out.toList) = .ok frag →
      unmarshalMap frag = .error e → extractFirstInt frag = .ok n →
      parseScore out = (clampScore n, none)) ∧
    (∀ out frag m n, firstJSONFragment (trimSpace out.toList) = .ok frag →
      unmarshalMap frag = .ok m → scoreFieldUsable (lookupField m msKey) = false →
      extractFirstInt frag = .ok n →
      parseScore out = (clampScore n, none)) := by
  refine ⟨by rfl, ?_, ?_, ?_⟩
  · intro out e n hf hi
    exact parseScore_isolation_failed out e n hf hi
  · intro out frag e n hf hm hi
    rw [parseScore_on_fragment out frag hf]
    exact parseScoreFromFragment_unmarshal_failed frag e n hm hi
  · intro out frag m n hf hm hu hi
    rw [parseScore_on_fragment out frag hf]
    exact parseScoreFromFragment_unusable_field frag m n hm hu hi

/-- Witness for C9's isolation-failed clause at the concrete prose
response. -/
theorem parseScore_digit_scan_fallback_witness :
    parseScore "The score is about 42 out of 100." = (clampScore 42, none) :=
  parseScore_digit_scan_fallback.2.1 "The score is about 42 out of 100."
    .noJSONFound 42 (by rfl) (by rfl)

/-- C10: whenever `parseScore` — and hence `ComputeMatchScore` — returns a
non-nil error, the score returned alongside it is exactly 0, so non-zero
scores only accompany a nil error. -/
theorem parseScore_zero_on_error :
    (∀ out, (parseScore out).2 ≠ none → (parseScore out).1 = 0) ∧
    (∀ outcome userSkills jobDescription,
      (ComputeMatchScore outcome userSkills jobDescription).2.2 ≠ none →
      (ComputeMatchScore outcome userSkills jobDescription).2.1 = 0) := by
  have hp : ∀ out, (parseScore out).2 ≠ none → (parseScore out).1 = 0 := by
    intro out h
    rcases parseScore_shape out with ⟨n, hs⟩ | ⟨e, hs, hd⟩
    · rw [hs] at h; simp at h
    · rw [hs]
  refine ⟨hp, ?_⟩
  intro outcome userSkills jobDescription h
  cases hr : (callGenAI outcome).result with
  | error e => simp [ComputeMatchScore, hr]
  | ok out =>
    simp only [ComputeMatchScore, hr] at h ⊢
    exact hp out h

/-- Witness for C10 at a response with no digits and no brackets. -/
theorem parseScore_zero_on_error_witness :
    (parseScore "no structured payload").1 = 0 :=
  parseScore_zero_on_error.1 "no structured payload" (by decide)

end AIService

namespace AIService

theorem strIndexNat_none_iff (c : Char) (l : List Char) :
    strIndexNat c l = none ↔ c ∉ l := by
  induction l with
  | nil => simp [strIndexNat]
  | cons x xs ih =>
    rw [strIndexNat]
    by_cases h : x == c
    · have hx : x = c := by simpa using h
      subst hx
      simp
    · have hx : ¬(x = c) := by simpa using h
      have hcx : ¬(c = x) := fun hh => hx hh.symm
      simp [h, ih, hcx, Option.map_eq_none']

theorem strIndexNat_append_not_mem (c : Char) (pre l : List Char) (h : c ∉ pre) :
    strIndexNat c (pre ++ l) = (strIndexNat c l).map (· + pre.length) := by
  induction pre with
  | nil =>
    rw [List.nil_append]
    cases hr : strIndexNat c l <;> simp [hr]
  | cons x xs ih =>
    rw [List.mem_cons, not_or] at h
    obtain ⟨h1, h2⟩ := h
    have hbeq : (x == c) = false := by
      simp only [beq_eq_false_iff_ne]
      exact fun hh => h1 hh.symm
    rw [List.cons_append, strIndexNat, hbeq]
    rw [ih h2]
    cases strIndexNat c l
    · simp
    · simp
      omega

theorem strLastIndexNat_none_iff (c : Char) (l : List Char) :
    strLastIndexNat c l = none ↔ c ∉ l := by
  induction l with
  | nil => simp [strLastIndexNat]
  | cons x xs ih =>
    rw [strLastIndexNat]
    cases hr : strLastIndexNat c xs with
    | some i =>
      have hc : c ∈ xs := by
        by_contra hc
        rw [ih.mpr hc] at hr
        cases hr
      simp [hc]
    | none =>
      have hc : c ∉ xs := ih.mp hr
      by_cases hx : x == c
      · have hxe : x = c := by simpa using hx
        subst hxe
        simp [hx]
      · have hxc : ¬(c = x) := fun hh => (by simpa using hx : ¬(x = c)) hh.symm
        simp [hx, hc, hxc]

theorem strLastIndexNat_lt_length (c : Char) (l : List Char) (i : Nat)
    (h : strLastIndexNat c l = some i) : i < l.length := by
  induction l generalizing i with
  | nil => cases h
  | cons x xs ih =>
    rw [strLastIndexNat] at h
    cases hr : strLastIndexNat c xs with
    | some j =>
      rw [hr] at h
      injection h with h2
      subst h2
      have := ih j hr
      simp
      omega
    | none =>
      rw [hr] at h
      by_cases hx : x == c
      · rw [if_pos hx] at h
        injection h with h2
        subst h2
        simp
      · rw [if_neg hx] at h
        cases h

theorem strLastIndexNat_append_not_mem (c : Char) (l post : List Char) (h : c ∉ post) :
    strLastIndexNat c (l ++ post) = strLastIndexNat c l := by
  induction l with
  | nil =>
    rw [List.nil_append]
    rw [(strLastIndexNat_none_iff c post).mpr h]
    rfl
  | cons x xs ih =>
    rw [List.cons_append, strLastIndexNat, strLastIndexNat, ih]

theorem strLastIndexNat_append_self (c : Char) (l post : List Char) (h : c ∉ post) :
    strLastIndexNat c (l ++ c :: post) = some l.length := by
  induction l with
  | nil =>
    rw [List.nil_append, strLastIndexNat]
    rw [(strLastIndexNat_none_iff c post).mpr h]
    simp
  | cons x xs ih =>
    rw [List.cons_append, strLastIndexNat, ih]
    simp

theorem strIndexZ_neg_iff (s : List Char) (c : Char) :
    strIndexZ s c = -1 ↔ c ∉ s := by
  unfold strIndexZ
  cases hr : strIndexNat c s with
  | none => simp [(strIndexNat_none_iff c s).mp hr]
  | some i =>
    have hc : c ∈ s := by
      by_contra hc
      rw [(strIndexNat_none_iff c s).mpr hc] at hr
      cases hr
    simp [hc]

end AIService

namespace AIService

theorem goSlice_decomp (pre mid post : List Char) (o cl : Char) :
    goSlice (pre ++ o :: (mid ++ cl :: post)) ((pre.length : Nat) : Int)
      (((pre.length + 1 + mid.length : Nat) : Int) + 1) = o :: (mid ++ [cl]) := by
  unfold goSlice
  have h1 : ((((pre.length + 1 + mid.length : Nat) : Int)) + 1).toNat =
      pre.length + (mid.length + 2) := by omega
  have h2 : ((pre.length : Nat) : Int).toNat = pre.length := by omega
  rw [h1, h2]
  have h3 : (pre ++ o :: (mid ++ cl :: post)).take (pre.length + (mid.length + 2)) =
      pre ++ (o :: (mid ++ cl :: post)).take (mid.length + 2) := List.take_append _
  rw [h3]
  have h4 : (o :: (mid ++ cl :: post)).take (mid.length + 2) = o :: (mid ++ [cl]) := by
    rw [show mid.length + 2 = (mid.length + 1) + 1 from rfl, List.take_succ_cons]
    congr 1
    have h5 : (mid ++ cl :: post).take (mid.length + 1) = mid ++ (cl :: post).take 1 :=
      List.take_append _
    rw [h5]
    simp
  rw [h4, List.drop_left]

theorem fJF_object_branch (s : List Char)
    (h2 : strIndexZ s chLBrace ≠ -1 ∧
      (strIndexZ s chLBrack = -1 ∨ strIndexZ s chLBrace < strIndexZ s chLBrack)) :
    firstJSONFragment s =
      if strLastIndexZ s chRBrace = -1 ∨ strLastIndexZ s chRBrace ≤ strIndexZ s chLBrace then
        .error .malformedObject
      else .ok (goSlice s (strIndexZ s chLBrace) (strLastIndexZ s chRBrace + 1)) := by
  have h1 : ¬(strIndexZ s chLBrace = -1 ∧ strIndexZ s chLBrack = -1) := fun hc => h2.1 hc.1
  unfold firstJSONFragment
  rw [if_neg h1, if_pos h2]

theorem fJF_array_branch (s : List Char)
    (h1 : ¬(strIndexZ s chLBrace = -1 ∧ strIndexZ s chLBrack = -1))
    (h2 : ¬(strIndexZ s chLBrace ≠ -1 ∧
      (strIndexZ s chLBrack = -1 ∨ strIndexZ s chLBrace < strIndexZ s chLBrack))) :
    firstJSONFragment s =
      if strLastIndexZ s chRBrack = -1 ∨ strLastIndexZ s chRBrack ≤ strIndexZ s chLBrack then
        .error .malformedArray
      else .ok (goSlice s (strIndexZ s chLBrack) (strLastIndexZ s chRBrack + 1)) := by
  unfold firstJSONFragment
  rw [if_neg h1, if_neg h2]

/-- The first-open/last-close behaviour of `firstJSONFragment`, stated over an
arbitrary decomposition of the text: when the earliest bracket of either kind
is `o` (nothing before it is an opening bracket of either kind), isolation
fails with the malformed error exactly when the matching closing bracket never
occurs after `o`, and otherwise the fragment extends from `o` to the last
occurrence of the matching closing bracket, inclusive. -/
theorem firstJSONFragment_decomp (pre : List Char) (o : Char) (rest : List Char)
    (ho : o = chLBrace ∨ o = chLBrack)
    (hpre1 : chLBrace ∉ pre) (hpre2 : chLBrack ∉ pre) :
    (matchingClose o ∉ rest →
      firstJSONFragment (pre ++ o :: rest) = .error (malformedFragmentErr o)) ∧
    (∀ mid post, rest = mid ++ matchingClose o :: post → matchingClose o ∉ post →
      firstJSONFragment (pre ++ o :: rest) = .ok (o :: (mid ++ [matchingClose o]))) := by
  rcases ho with rfl | rfl
  · have hmc : matchingClose chLBrace = chRBrace := by decide
    have hme : malformedFragmentErr chLBrace = GoError.malformedObject := by decide
    rw [hmc, hme]
    have hBr : strIndexNat chLBrace (pre ++ chLBrace :: rest) = some (0 + pre.length) := by
      rw [strIndexNat_append_not_mem chLBrace pre (chLBrace :: rest) hpre1, strIndexNat]
      simp
    have hobjZ : strIndexZ (pre ++ chLBrace :: rest) chLBrace = ((pre.length : Nat) : Int) := by
      unfold strIndexZ
      rw [hBr]
      simp
    have harrZ : strIndexZ (pre ++ chLBrace :: rest) chLBrack = -1 ∨
        ∃ j : Nat, strIndexZ (pre ++ chLBrace :: rest) chLBrack = ((j + 1 + pre.length : Nat) : Int) := by
      rcases hA : strIndexNat chLBrack rest with _ | j
      · left
        unfold strIndexZ
        rw [strIndexNat_append_not_mem chLBrack pre (chLBrace :: rest) hpre2, strIndexNat]
        simp [show (chLBrace == chLBrack) = false from by decide, hA]
      · right
        refine ⟨j, ?_⟩
        unfold strIndexZ
        rw [strIndexNat_append_not_mem chLBrack pre (chLBrace :: rest) hpre2, strIndexNat]
        simp [show (chLBrace == chLBrack) = false from by decide, hA]
    have hcond2 : strIndexZ (pre ++ chLBrace :: rest) chLBrace ≠ -1 ∧
        (strIndexZ (pre ++ chLBrace :: rest) chLBrack = -1 ∨
         strIndexZ (pre ++ chLBrace :: rest) chLBrace <
           strIndexZ (pre ++ chLBrace :: rest) chLBrack) := by
      rcases harrZ with h | ⟨j, h⟩ <;> rw [hobjZ, h] <;> omega
    have hbranch := fJF_object_branch (pre ++ chLBrace :: rest) hcond2
    constructor
    · intro hnc
      have hncl : chRBrace ∉ chLBrace :: rest := by
        simp only [List.mem_cons, not_or]
        exact ⟨by decide, hnc⟩
      have hlast : strLastIndexNat chRBrace (pre ++ chLBrace :: rest) =
          strLastIndexNat chRBrace pre :=
        strLastIndexNat_append_not_mem chRBrace pre (chLBrace :: rest) hncl
      rcases hp : strLastIndexNat chRBrace pre with _ | j2
      · have hlastZ : strLastIndexZ (pre ++ chLBrace :: rest) chRBrace = -1 := by
          unfold strLastIndexZ
          rw [hlast, hp]
        rw [hbranch, if_pos]
        rw [hlastZ]
        omega
      · have hj2 : j2 < pre.length := strLastIndexNat_lt_length chRBrace pre j2 hp
        have hlastZ : strLastIndexZ (pre ++ chLBrace :: rest) chRBrace = ((j2 : Nat) : Int) := by
          unfold strLastIndexZ
          rw [hlast, hp]
        rw [hbranch, if_pos]
        rw [hlastZ, hobjZ]
        omega
    · intro mid post hrest hnp
      subst hrest
      have hassoc : pre ++ chLBrace :: (mid ++ chRBrace :: post) =
          (pre ++ chLBrace :: mid) ++ chRBrace :: post := by
        simp
      have hlastS : strLastIndexNat chRBrace (pre ++ chLBrace :: (mid ++ chRBrace :: post)) =
          some (pre.length + 1 + mid.length) := by
        rw [hassoc, strLastIndexNat_append_self chRBrace (pre ++ chLBrace :: mid) post hnp]
        congr 1
        simp
        omega
      have hlastZ : strLastIndexZ (pre ++ chLBrace :: (mid ++ chRBrace :: post)) chRBrace =
          ((pre.length + 1 + mid.length : Nat) : Int) := by
        unfold strLastIndexZ
        rw [hlastS]
      rw [hbranch, if_neg]
      · rw [hobjZ, hlastZ]
        exact congrArg Except.ok (goSlice_decomp pre mid post chLBrace chRBrace)
      · rw [hobjZ, hlastZ]
        omega
  · have hmc : matchingClose chLBrack = chRBrack := by decide
    have hme : malformedFragmentErr chLBrack = GoError.malformedArray := by decide
    rw [hmc, hme]
    have hBr : strIndexNat chLBrack (pre ++ chLBrack :: rest) = some (0 + pre.length) := by
      rw [strIndexNat_append_not_mem chLBrack pre (chLBrack :: rest) hpre2, strIndexNat]
      simp
    have harrZ : strIndexZ (pre ++ chLBrack :: rest) chLBrack = ((pre.length : Nat) : Int) := by
      unfold strIndexZ
      rw [hBr]
      simp
    have hobjZ : strIndexZ (pre ++ chLBrack :: rest) chLBrace = -1 ∨
        ∃ j : Nat, strIndexZ (pre ++ chLBrack :: rest) chLBrace = ((j + 1 + pre.length : Nat) : Int) := by
      rcases hA : strIndexNat chLBrace rest with _ | j
      · left
        unfold strIndexZ
        rw [strIndexNat_append_not_mem chLBrace pre (chLBrack :: rest) hpre1, strIndexNat]
        simp [show (chLBrack == chLBrace) = false from by decide, hA]
      · right
        refine ⟨j, ?_⟩
        unfold strIndexZ
        rw [strIndexNat_append_not_mem chLBrace pre (chLBrack :: rest) hpre1, strIndexNat]
        simp [show (chLBrack == chLBrace) = false from by decide, hA]
    have hcond1 : ¬(strIndexZ (pre ++ chLBrack :: rest) chLBrace = -1 ∧
        strIndexZ (pre ++ chLBrack :: rest) chLBrack = -1) := by
      rw [harrZ]
      omega
    have hcond2 : ¬(strIndexZ (pre ++ chLBrack :: rest) chLBrace ≠ -1 ∧
        (strIndexZ (pre ++ chLBrack :: rest) chLBrack = -1 ∨
         strIndexZ (pre ++ chLBrack :: rest) chLBrace <
           strIndexZ (pre ++ chLBrack :: rest) chLBrack)) := by
      rcases hobjZ with h | ⟨j, h⟩ <;> rw [harrZ, h] <;> omega
    have hbranch := fJF_array_branch (pre ++ chLBrack :: rest) hcond1 hcond2
    constructor
    · intro hnc
      have hncl : chRBrack ∉ chLBrack :: rest := by
        simp only [List.mem_cons, not_or]
        exact ⟨by decide, hnc⟩
      have hlast : strLastIndexNat chRBrack (pre ++ chLBrack :: rest) =
          strLastIndexNat chRBrack pre :=
        strLastIndexNat_append_not_mem chRBrack pre (chLBrack :: rest) hncl
      rcases hp : strLastIndexNat chRBrack pre with _ | j2
      · have hlastZ : strLastIndexZ (pre ++ chLBrack :: rest) chRBrack = -1 := by
          unfold strLastIndexZ
          rw [hlast, hp]
        rw [hbranch, if_pos]
        rw [hlastZ]
        omega
      · have hj2 : j2 < pre.length := strLastIndexNat_lt_length chRBrack pre j2 hp
        have hlastZ : strLastIndexZ (pre ++ chLBrack :: rest) chRBrack = ((j2 : Nat) : Int) := by
          unfold strLastIndexZ
          rw [hlast, hp]
        rw [hbranch, if_pos]
        rw [hlastZ, harrZ]
        omega
    · intro mid post hrest hnp
      subst hrest
      have hassoc : pre ++ chLBrack :: (mid ++ chRBrack :: post) =
          (pre ++ chLBrack :: mid) ++ chRBrack :: post := by
        simp
      have hlastS : strLastIndexNat chRBrack (pre ++ chLBrack :: (mid ++ chRBrack :: post)) =
          some (pre.length + 1 + mid.length) := by
        rw [hassoc, strLastIndexNat_append_self chRBrack (pre ++ chLBrack :: mid) post hnp]
        congr 1
        simp
        omega
      have hlastZ : strLastIndexZ (pre ++ chLBrack :: (mid ++ chRBrack :: post)) chRBrack =
          ((pre.length + 1 + mid.length : Nat) : Int) := by
        unfold strLastIndexZ
        rw [hlastS]
      rw [hbranch, if_neg]
      · rw [harrZ, hlastZ]
        exact congrArg Except.ok (goSlice_decomp pre mid post chLBrack chRBrack)
      · rw [harrZ, hlastZ]
        omega

end AIService

namespace AIService

/-- C2: fragment isolation fails with the no-fragment error exactly when
neither kind of opening bracket occurs in the text; otherwise, writing the
text as `pre ++ o :: rest` where `o` is the earliest opening bracket of
either kind (no opening bracket of either kind occurs in `pre`), isolation
fails with the malformed error when the matching closing bracket does not
occur after `o` (equivalently, the last closing bracket of the text is
missing or at or before the opening position), and otherwise returns the
substring from `o` through the last occurrence of the matching closing
bracket, inclusive. -/
theorem firstJSONFragment_spec (t : List Char) :
    (firstJSONFragment t = .error .noJSONFound ↔ (chLBrace ∉ t ∧ chLBrack ∉ t)) ∧
    (∀ pre o rest, t = pre ++ o :: rest → (o = chLBrace ∨ o = chLBrack) →
      chLBrace ∉ pre → chLBrack ∉ pre →
      ((matchingClose o ∉ rest → firstJSONFragment t = .error (malformedFragmentErr o)) ∧
       (∀ mid post, rest = mid ++ matchingClose o :: post → matchingClose o ∉ post →
         firstJSONFragment t = .ok (o :: (mid ++ [matchingClose o]))))) := by
  constructor
  · constructor
    · intro h
      by_contra hc
      have h1 : ¬(strIndexZ t chLBrace = -1 ∧ strIndexZ t chLBrack = -1) := by
        intro hz
        exact hc ⟨(strIndexZ_neg_iff t chLBrace).mp hz.1, (strIndexZ_neg_iff t chLBrack).mp hz.2⟩
      unfold firstJSONFragment at h
      rw [if_neg h1] at h
      by_cases h2 : strIndexZ t chLBrace ≠ -1 ∧
          (strIndexZ t chLBrack = -1 ∨ strIndexZ t chLBrace < strIndexZ t chLBrack)
      · rw [if_pos h2] at h
        by_cases h3 : strLastIndexZ t chRBrace = -1 ∨
            strLastIndexZ t chRBrace ≤ strIndexZ t chLBrace
        · rw [if_pos h3] at h
          simp at h
        · rw [if_neg h3] at h
          simp at h
      · rw [if_neg h2] at h
        by_cases h3 : strLastIndexZ t chRBrack = -1 ∨
            strLastIndexZ t chRBrack ≤ strIndexZ t chLBrack
        · rw [if_pos h3] at h
          simp at h
        · rw [if_neg h3] at h
          simp at h
    · intro hb
      unfold firstJSONFragment
      rw [if_pos ⟨(strIndexZ_neg_iff t chLBrace).mpr hb.1, (strIndexZ_neg_iff t chLBrack).mpr hb.2⟩]
  · intro pre o rest ht ho hp1 hp2
    subst ht
    exact firstJSONFragment_decomp pre o rest ho hp1 hp2

/-- Witness for C2 at the concrete text `x\x7ba\x7db`: the earliest bracket is
the curly bracket at index 1 and the fragment runs to the last closing curly
bracket. -/
theorem firstJSONFragment_spec_witness :
    firstJSONFragment "x\x7ba\x7db".toList = .ok "\x7ba\x7d".toList := by
  have h2 : "x\x7ba\x7db".toList = "x".toList ++ chLBrace :: "a\x7db".toList := by decide
  have h := ((firstJSONFragment_spec "x\x7ba\x7db".toList).2 "x".toList chLBrace "a\x7db".toList
    h2 (by decide) (by decide) (by decide)).2 "a".toList "b".toList (by decide) (by decide)
  rw [h]
  decide

end AIService

namespace AIService

theorem parseJStringBody_plain (content : List Char) :
    ∀ rest, (∀ c ∈ content, PlainChar c) →
      parseJStringBody (content ++ chQuote :: rest) = some (content, rest) := by
  induction content with
  | nil =>
    intro rest h
    rw [List.nil_append, parseJStringBody.eq_def]
    simp
  | cons c cs ih =>
    intro rest h
    obtain ⟨hq, hb, h32⟩ := h c (List.mem_cons_self c cs)
    have hq2 : (c == chQuote) = false := by simp [hq]
    have hb2 : (c == chBackslash) = false := by simp [hb]
    have h32b : ¬(c.toNat < 32) := by omega
    rw [List.cons_append, parseJStringBody.eq_def]
    simp [hq2, hb2, h32b, ih rest (fun x hx => h x (List.mem_cons_of_mem c hx))]

theorem skipWS_cons_of_not_space (c : Char) (l : List Char) (h : isJSONSpace c = false) :
    skipWS (c :: l) = c :: l := by
  simp [skipWS, h]

theorem parseVal_str (f : Nat) (s rest : List Char) (hs : ∀ c ∈ s, PlainChar c) :
    parseVal (f + 1) (chQuote :: (s ++ chQuote :: rest)) = some (.str s, rest) := by
  rw [parseVal]
  rw [skipWS_cons_of_not_space chQuote _ (by decide)]
  simp [parseJStringBody_plain s rest hs]

theorem itemsText_nil : itemsText [] = [chRBrack] := rfl

theorem itemsText_single (x : String) :
    itemsText [x] = chQuote :: (x.toList ++ chQuote :: [chRBrack]) := by
  simp [itemsText, joinComma, renderString]

theorem itemsText_cons2 (x y : String) (t2 : List String) :
    itemsText (x :: y :: t2) = chQuote :: (x.toList ++ chQuote :: (',' :: itemsText (y :: t2))) := by
  simp [itemsText, joinComma, renderString]

theorem itemsText_length (xs : List String) : xs.length + 1 ≤ (itemsText xs).length := by
  induction xs with
  | nil => simp [itemsText_nil]
  | cons x tail ih =>
    cases tail with
    | nil => simp [itemsText_single]
    | cons y t2 =>
      rw [itemsText_cons2]
      simp only [List.length_cons, List.length_append] at *
      omega

end AIService

namespace AIService

theorem parseArrItems_itemsText (xs : List String) :
    ∀ f, xs.length + 1 ≤ f →
      (∀ s ∈ xs, ∀ c ∈ s.toList, PlainChar c) →
      ∀ aE, (aE = true ∨ xs ≠ []) →
      parseArrItems f aE (itemsText xs) =
        some (xs.map (fun s => JValue.str s.toList), []) := by
  induction xs with
  | nil =>
    intro f hf hp aE haE
    have haE2 : aE = true := by
      rcases haE with h | h
      · exact h
      · exact absurd rfl h
    subst haE2
    obtain ⟨f2, rfl⟩ : ∃ f2, f = f2 + 1 := ⟨f - 1, by omega⟩
    rw [itemsText_nil, parseArrItems]
    rw [skipWS_cons_of_not_space chRBrack _ (by decide)]
    simp
  | cons x tail ih =>
    intro f hf hp aE haE
    obtain ⟨f2, rfl⟩ : ∃ f2, f = f2 + 1 := ⟨f - 1, by omega⟩
    have hplx : ∀ c ∈ x.toList, PlainChar c := hp x (List.mem_cons_self x tail)
    cases tail with
    | nil =>
      simp only [List.length_cons, List.length_nil] at hf
      rw [itemsText_single, parseArrItems]
      rw [skipWS_cons_of_not_space chQuote _ (by decide)]
      obtain ⟨f3, rfl⟩ : ∃ f3, f2 = f3 + 1 := ⟨f2 - 1, by omega⟩
      simp only [show (chQuote == chRBrack) = false from by decide, Bool.and_false]
      rw [if_neg (by simp)]
      rw [parseVal_str f3 x.toList [chRBrack] hplx]
      simp [skipWS_cons_of_not_space chRBrack [] (by decide),
        show (chRBrack == ',') = false from by decide]
    | cons y t2 =>
      simp only [List.length_cons] at hf
      rw [itemsText_cons2, parseArrItems]
      rw [skipWS_cons_of_not_space chQuote _ (by decide)]
      obtain ⟨f3, rfl⟩ : ∃ f3, f2 = f3 + 1 := ⟨f2 - 1, by omega⟩
      simp only [show (chQuote == chRBrack) = false from by decide, Bool.and_false]
      rw [if_neg (by simp)]
      rw [parseVal_str f3 x.toList (',' :: itemsText (y :: t2)) hplx]
      have hrec := ih (f3 + 1)
        (by simp only [List.length_cons]; omega)
        (fun s hs => hp s (List.mem_cons_of_mem x hs)) false (Or.inr (by simp))
      simp [skipWS_cons_of_not_space ',' _ (by decide), hrec]

theorem parseVal_itemsText (xs : List String) (f : Nat) (hf : xs.length + 2 ≤ f)
    (hp : ∀ s ∈ xs, ∀ c ∈ s.toList, PlainChar c) :
    parseVal f (chLBrack :: itemsText xs) =
      some (.arr (xs.map (fun s => JValue.str s.toList)), []) := by
  obtain ⟨f2, rfl⟩ : ∃ f2, f = f2 + 1 := ⟨f - 1, by omega⟩
  rw [parseVal]
  rw [skipWS_cons_of_not_space chLBrack _ (by decide)]
  simp [show (chLBrack == chQuote) = false from by decide,
    show (chLBrack == chLBrace) = false from by decide,
    parseArrItems_itemsText xs f2 (by omega) hp true (Or.inl rfl)]

end AIService

namespace AIService

theorem unmarshalValue_render (xs : List String)
    (hp : ∀ s ∈ xs, ∀ c ∈ s.toList, PlainChar c) :
    unmarshalValue (chLBrack :: itemsText xs) =
      some (.arr (xs.map (fun s => JValue.str s.toList))) := by
  have hlen := itemsText_length xs
  unfold unmarshalValue
  rw [parseVal_itemsText xs (2 * (chLBrack :: itemsText xs).length + 2)
    (by simp only [List.length_cons]; omega) hp]
  simp [skipWS]

theorem mapStringElems_render (xs : List String) :
    mapStringElems (xs.map (fun s => JValue.str s.toList)) = some xs := by
  induction xs with
  | nil => rfl
  | cons x tail ih =>
    rw [List.map_cons, mapStringElems]
    rw [ih]
    rfl

theorem unmarshalStringArray_render (xs : List String)
    (hp : ∀ s ∈ xs, ∀ c ∈ s.toList, PlainChar c) :
    unmarshalStringArray (chLBrack :: itemsText xs) = .ok xs := by
  unfold unmarshalStringArray
  rw [unmarshalValue_render xs hp]
  have h2 : mapStringElems (List.map (fun s => JValue.str s.data) xs) = some xs :=
    mapStringElems_render xs
  simp [jvalueToStringList, h2]

theorem trimSpace_ends (a b : Char) (l : List Char)
    (ha : goIsSpace a = false) (hb : goIsSpace b = false) :
    trimSpace (a :: (l ++ [b])) = a :: (l ++ [b]) := by
  unfold trimSpace
  rw [List.dropWhile_cons]
  simp [ha, hb]

theorem firstJSONFragment_render (xs : List String) :
    firstJSONFragment (chLBrack :: itemsText xs) = .ok (chLBrack :: itemsText xs) := by
  have hmc : matchingClose chLBrack = chRBrack := by decide
  have h := (firstJSONFragment_decomp [] chLBrack (itemsText xs) (Or.inr rfl)
    (by simp) (by simp)).2 (joinComma (xs.map renderString)) []
    (by rw [hmc]; rfl) (by rw [hmc]; simp)
  rw [List.nil_append] at h
  rw [h, hmc]
  rfl

theorem parseStringArray_on_fragment (out : String) (frag : List Char)
    (hf : firstJSONFragment (trimSpace out.toList) = .ok frag) :
    parseStringArray out = parseStringArrayFromFragment frag := by
  unfold parseStringArray
  cases hfr : firstJSONFragment (trimSpace out.toList) with
  | error e => rw [hfr] at hf; cases hf
  | ok frag2 => rw [hfr] at hf; injection hf with h; subst h; rfl

theorem parseStringArrayFromFragment_strict (frag : List Char) (arr : List String)
    (h : unmarshalStringArray frag = .ok arr) :
    parseStringArrayFromFragment frag = .ok arr := by
  unfold parseStringArrayFromFragment
  simp only [h]

theorem parseStringArrayFromFragment_repair (frag : List Char) (e : GoError)
    (arr : List String)
    (h1 : unmarshalStringArray frag = .error e)
    (h2 : unmarshalStringArray (replaceAllChar frag chSQuote chQuote) = .ok arr) :
    parseStringArrayFromFragment frag = .ok arr := by
  unfold parseStringArrayFromFragment
  simp only [h1, h2]

/-- C8: the skills path strictly parses the isolated fragment as a string
array and, exactly when the strict parse fails, retries once after replacing
every single quote by a double quote; consequently every response that is
exactly a rendered JSON string array (over characters needing no escapes) is
returned verbatim in order, and the concrete single-quote response from the
spec is repaired to `["go","react","sql"]`. -/
theorem parseStringArray_strict_then_repair :
    (∀ xs : List String, (∀ s ∈ xs, ∀ c ∈ s.toList, PlainChar c) →
      parseStringArray (renderStringArray xs) = .ok xs) ∧
    parseStringArray "Sure! Here are the skills: [\"go\", 'react', \"sql\"] Hope that helps!" =
      .ok ["go", "react", "sql"] ∧
    (∀ out frag arr, firstJSONFragment (trimSpace out.toList) = .ok frag →
      unmarshalStringArray frag = .ok arr → parseStringArray out = .ok arr) ∧
    (∀ out frag e arr, firstJSONFragment (trimSpace out.toList) = .ok frag →
      unmarshalStringArray frag = .error e →
      unmarshalStringArray (replaceAllChar frag chSQuote chQuote) = .ok arr →
      parseStringArray out = .ok arr) := by
  refine ⟨?_, by rfl, ?_, ?_⟩
  · intro xs hp
    have htl : (renderStringArray xs).toList = chLBrack :: itemsText xs :=
      List.toList_asString _
    have htrim : trimSpace ((renderStringArray xs).toList) = chLBrack :: itemsText xs := by
      rw [htl]
      rw [show chLBrack :: itemsText xs =
        chLBrack :: (joinComma (xs.map renderString) ++ [chRBrack]) from rfl]
      exact trimSpace_ends chLBrack chRBrack _ (by decide) (by decide)
    have hf : firstJSONFragment (trimSpace ((renderStringArray xs).toList)) =
        .ok (chLBrack :: itemsText xs) := by
      rw [htrim]
      exact firstJSONFragment_render xs
    rw [parseStringArray_on_fragment (renderStringArray xs) _ hf]
    exact parseStringArrayFromFragment_strict _ xs (unmarshalStringArray_render xs hp)
  · intro out frag arr hf hm
    rw [parseStringArray_on_fragment out frag hf]
    exact parseStringArrayFromFragment_strict frag arr hm
  · intro out frag e arr hf h1 h2
    rw [parseStringArray_on_fragment out frag hf]
    exact parseStringArrayFromFragment_repair frag e arr h1 h2

/-- Witness for C8: the rendered response is literally the text
`["a","b","c"]` and is parsed back verbatim. -/
theorem parseStringArray_strict_then_repair_witness :
    renderStringArray ["a", "b", "c"] = "[\"a\",\"b\",\"c\"]" ∧
    parseStringArray (renderStringArray ["a", "b", "c"]) = .ok ["a", "b", "c"] :=
  ⟨by decide, parseStringArray_strict_then_repair.1 ["a", "b", "c"] (by decide)⟩

end AIService
